import Mathlib

/-!
Formal model of the core logic of the multi-pilot VS Code extension:
model resolution (`getAIModels`), the chat webview result sink
(`ChatWebView`), the multi-model fan-out dispatch of a chat turn, turn
context handling, and the prompt-enhancement template selection and
truncation rules.  Each definition is a shallow embedding of the
corresponding TypeScript function; JavaScript-specific behaviours
(truthiness of the empty string, `split('/').pop()`, `Map.set`,
`Set.add`/`Set.delete`, string interpolation of `null`) are embedded
explicitly.
-/

namespace MultiPilot

set_option maxRecDepth 8192

/-! ### JavaScript string helpers -/

/-- Boolean test that `pat` is a prefix of `l`. -/
def listIsPrefixOf : List Char → List Char → Bool
  | [], _ => true
  | _ :: _, [] => false
  | a :: as, b :: bs => a == b && listIsPrefixOf as bs

/-- Boolean test that `pat` occurs contiguously inside `l`. -/
def listIsInfixOf (pat : List Char) : List Char → Bool
  | [] => pat.isEmpty
  | b :: bs => listIsPrefixOf pat (b :: bs) || listIsInfixOf pat bs

/-- JS `s.includes(pat)` : `pat` occurs as a contiguous substring of `s`. -/
def containsSub (s pat : String) : Bool :=
  listIsInfixOf pat.data s.data

/-- JS `s.toLowerCase()` (character-wise lowering). -/
def jsToLower (s : String) : String :=
  String.mk (s.data.map Char.toLower)

/-- JS `a || b` for strings: the empty string is falsy. -/
def jsOrElse (a fallback : String) : String :=
  if a = "" then fallback else a

/-- JS `String.prototype.split` with a one-character separator, on
character lists: splits into the chunks between occurrences of `c`
(an empty chunk between adjacent separators, before a leading one and
after a trailing one). -/
def splitOnChar (c : Char) : List Char → List (List Char)
  | [] => [[]]
  | x :: xs =>
    match splitOnChar c xs with
    | [] => [[]]
    | h :: t => if x = c then [] :: h :: t else (x :: h) :: t

/-- JS `s.split('/').pop()` : the last chunk of the split (as a string). -/
def jsSplitPop (s : String) : String :=
  String.mk ((splitOnChar '/' s.data).getLastD [])

/-- The characters of `s` after the last occurrence of `c` (all of `s`
when `c` does not occur): the spec's "substring after the last `/`". -/
def afterLastChar (c : Char) (s : String) : String :=
  String.mk ((s.data.reverse.takeWhile (fun x => x != c)).reverse)

/-! ### Model resolution (extension module, `getAIModels`) -/

/-- Data structure for AI model metadata. -/
structure AIModel where
  id : String
  name : String
  displayName : String
  matchPatterns : List String
deriving DecidableEq, Repr

/-- Collection of default models to use if no user selection exists. -/
def DEFAULT_AI_MODELS : List AIModel :=
  [{ id := "gpt-4o", name := "GPT-4o", displayName := "GPT-4o",
     matchPatterns := ["gpt", "openai", "4o"] },
   { id := "gemini-2.0-flash-001", name := "Gemini Flash", displayName := "Gemini 2.0 Flash",
     matchPatterns := ["gemini", "google", "flash"] }]

/-- The synthesized model configuration for an identifier that is not in
the default catalog: display name from `modelId.split('/').pop() || modelId`,
match patterns `[modelId.toLowerCase()]`. -/
def synthesizeModel (modelId : String) : AIModel :=
  let displayName := jsOrElse (jsSplitPop modelId) modelId
  { id := modelId, name := displayName, displayName := displayName,
    matchPatterns := [jsToLower modelId] }

/-- `getAIModels`, with the persisted selection already loaded: empty
selection yields the defaults, otherwise each selected identifier is
looked up in the defaults and synthesized when missing. -/
def getAIModels (selectedModelIds : List String) : List AIModel :=
  if selectedModelIds.isEmpty then DEFAULT_AI_MODELS
  else
    selectedModelIds.map (fun modelId =>
      match DEFAULT_AI_MODELS.find? (fun m => m.id == modelId) with
      | some existingModel => existingModel
      | none => synthesizeModel modelId)

/-! ### The result sink (`ChatWebView`) -/

/-- JS `Map.set` on an insertion-ordered association list: replaces the
value in place when the key is present, appends otherwise. -/
def mapSet : List (String × String) → String → String → List (String × String)
  | [], key, value => [(key, value)]
  | (k, v) :: rest, key, value =>
    if k = key then (key, value) :: rest else (k, v) :: mapSet rest key value

/-- JS `Map.get` on the association list. -/
def mapGet? : List (String × String) → String → Option String
  | [], _ => none
  | (k, v) :: rest, key => if k = key then some v else mapGet? rest key

/-- JS `Set.add` on an insertion-ordered list without duplicates. -/
def setAdd (s : List String) (x : String) : List String :=
  if x ∈ s then s else s ++ [x]

/-- JS `Set.delete` (membership view: every occurrence is removed). -/
def setDelete (s : List String) (x : String) : List String :=
  s.filter (fun y => y != x)

/-- The per-target display state of the chat comparison webview:
last user message, per-model formatted responses (`Map`), the ordered
list of model names, and the hidden-model set. -/
structure ChatWebView where
  lastUserMessage : String
  responses : List (String × String)
  modelNames : List String
  hiddenModels : List String
deriving DecidableEq, Repr

/-- The loading-animation markup `startModelResponse` stores. -/
def typingIndicatorHtml : String :=
  "<div class=\"typing-indicator\">\n      <span></span>\n      <span></span>\n      <span></span>\n    </div>"

/-- The loading-animation markup `formatMarkdown` returns for empty input. -/
def typingIndicatorInlineHtml : String :=
  "<div class=\"typing-indicator\"><span></span><span></span><span></span></div>"

/-- The placeholder `renderModelResponse` shows for a model with no
stored response. -/
def waitingMessageHtml : String :=
  "<div class=\"message-container\">\n        <div class=\"message\">\n          <p>Waiting for your question...</p>\n        </div>\n      </div>"

/-- The markup wrapping a stored response in `renderModelResponse`. -/
def responseMessageHtml (response : String) : String :=
  "<div class=\"message-container\">\n      <div class=\"message\">\n        " ++
    response ++ "\n      </div>\n    </div>"

/-- `formatMarkdown`, with the external `marked.parse` renderer abstracted
as the function argument `marked`. -/
def formatMarkdown (marked : String → String) (markdown : String) : String :=
  if markdown = "" then typingIndicatorInlineHtml else marked markdown

/-- `setUserMessage`. -/
def setUserMessage (s : ChatWebView) (message : String) : ChatWebView :=
  { s with lastUserMessage := message }

/-- `updateModelResponse`: adds the name when missing and stores the
formatted response. -/
def updateModelResponse (marked : String → String) (s : ChatWebView)
    (modelName response : String) : ChatWebView :=
  { s with
    modelNames := if modelName ∈ s.modelNames then s.modelNames else s.modelNames ++ [modelName]
    responses := mapSet s.responses modelName (formatMarkdown marked response) }

/-- `toggleModelVisibility`. -/
def toggleModelVisibility (s : ChatWebView) (modelName : String) (isVisible : Bool) :
    ChatWebView :=
  { s with
    hiddenModels :=
      if isVisible then setDelete s.hiddenModels modelName
      else setAdd s.hiddenModels modelName }

/-- `startModelResponse`: adds the name when missing and stores the
typing indicator. -/
def startModelResponse (s : ChatWebView) (modelName : String) : ChatWebView :=
  { s with
    modelNames := if modelName ∈ s.modelNames then s.modelNames else s.modelNames ++ [modelName]
    responses := mapSet s.responses modelName typingIndicatorHtml }

/-- `clearChat`: clears the message and the responses, keeps the model
names to maintain the column structure. -/
def clearChat (s : ChatWebView) : ChatWebView :=
  { s with lastUserMessage := "", responses := [] }

/-- `resetModels`: drops the model list and the responses; the last user
message (and the hidden-model set) are not cleared. -/
def resetModels (s : ChatWebView) : ChatWebView :=
  { s with modelNames := [], responses := [] }

/-- `renderModelResponse`: a model with no stored response (or, JS
falsiness, an empty stored response) renders as the waiting placeholder,
otherwise the stored markup is wrapped. -/
def renderModelResponse (s : ChatWebView) (modelName : String) : String :=
  match mapGet? s.responses modelName with
  | none => waitingMessageHtml
  | some response =>
    if response = "" then waitingMessageHtml else responseMessageHtml response

/-- From `renderModelColumns`: a column is rendered hidden exactly when
its name is in the hidden-model set. -/
def renderHidden (s : ChatWebView) (modelName : String) : Prop :=
  modelName ∈ s.hiddenModels

instance (s : ChatWebView) (modelName : String) : Decidable (renderHidden s modelName) :=
  inferInstanceAs (Decidable (modelName ∈ s.hiddenModels))


/-! ### Turn orchestration (chat participant) -/

/-- The shape of a JS error value as inspected by `getModelErrorMessage`:
optional `message` and `code` fields. -/
structure JsError where
  message : Option String
  code : Option String
deriving DecidableEq, Repr

/-- `getModelErrorMessage`: maps backend failures to user-facing text. -/
def getModelErrorMessage (error : JsError) : String :=
  if (match error.message with
      | some m => containsSub m "Model is not supported"
      | none => false) then
    "Model compatibility error: The model is not supported for this request. This typically happens when the model doesn't support the requested operation or the API version isn't compatible."
  else if error.code == some "model_not_supported" then
    "Model compatibility error: The selected model is not supported. Please try a different model or check your configuration."
  else if (match error.message with
      | some m => containsSub m "Request Failed: 400"
      | none => false) then
    "Request error: The API returned a 400 error. This typically means the request format wasn't compatible with the model."
  else
    "Error: " ++ (match error.message with
      | some m => if m = "" then "Unknown error occurred" else m
      | none => "Unknown error occurred")

/-- JS truthiness of a `string | null` value. -/
def jsTruthyOpt : Option String → Bool
  | some s => !(s == "")
  | none => false

/-- JS template interpolation of a `string | null` value (`null` prints
as the text "null"). -/
def jsInterpOpt : Option String → String
  | some s => s
  | none => "null"

/-- The fixed role preamble of the composed chat message. -/
def rolePreamble : String :=
  "### Role ###\nYou are an expert AI assistant. Your task is to provide detailed, beginner-friendly explanations.\n"

/-- The user message composed at the start of a chat turn: with stored
context a history block is inserted, otherwise only the current
question. -/
def composeUserMessage (prompt : String)
    (lastUserQuery lastModelResponse : Option String) : String :=
  if jsTruthyOpt lastUserQuery || jsTruthyOpt lastModelResponse then
    rolePreamble ++ "### Conversation History ###\n" ++
      "Previous Question: " ++ jsInterpOpt lastUserQuery ++ "\n" ++
      "Previous Response: " ++ jsInterpOpt lastModelResponse ++ "\n" ++
      "### Current Question ###\n" ++ prompt
  else
    rolePreamble ++ "### Current Question ###\n" ++ prompt

/-- The turn handler's update of the closure variables
`(lastUserQuery, lastModelResponse)` once a target's stream completes
successfully with `responseText`: the response is stored unless it
contains the case-insensitive substring "error:"; the question received
as `prompt` is never stored (the handler declares `lastUserQuery` but
never assigns it). -/
def chatTurnContext (_prompt responseText : String)
    (lastUserQuery lastModelResponse : Option String) :
    Option String × Option String :=
  if containsSub (jsToLower responseText) "error:" then
    (lastUserQuery, lastModelResponse)
  else
    (lastUserQuery, some responseText)

/-- The display name a dispatched model is registered under. -/
def turnModelName (aiModels : List AIModel) (index : Nat) (modelId : String) : String :=
  match aiModels.find? (fun m => m.id == modelId) with
  | some modelConfig => modelConfig.displayName
  | none => "Model " ++ toString (index + 1) ++ ": " ++ jsOrElse (jsSplitPop modelId) modelId

/-- What one target's backend does in this turn: stream some fragments
and complete, or stream some fragments and then throw. -/
inductive ModelOutcome where
  | success (fragments : List String)
  | failure (fragments : List String) (error : JsError)
deriving DecidableEq, Repr

/-- One observable effect of a per-target task on the shared state. -/
inductive SinkEvent where
  | register (modelName : String)
  | update (modelName : String) (text : String)
  | ctxSet (text : String)
deriving DecidableEq, Repr

/-- The sink key an event writes to (none for the turn-context write). -/
def eventName : SinkEvent → Option String
  | .register modelName => some modelName
  | .update modelName _ => some modelName
  | .ctxSet _ => none

/-- The shared state a chat turn mutates: the webview and the closure
variables holding the turn context. -/
structure TurnState where
  view : ChatWebView
  lastUserQuery : Option String
  lastModelResponse : Option String
deriving DecidableEq, Repr

/-- Apply one event to the shared state. -/
def applyEvent (marked : String → String) (st : TurnState) : SinkEvent → TurnState
  | .register modelName => { st with view := startModelResponse st.view modelName }
  | .update modelName text =>
    { st with view := updateModelResponse marked st.view modelName text }
  | .ctxSet text => { st with lastModelResponse := some text }

/-- Apply a sequence of events. -/
def applyTrace (marked : String → String) (st : TurnState) (events : List SinkEvent) : TurnState :=
  events.foldl (applyEvent marked) st

/-- The accumulated response text after consuming all fragments,
starting from `acc` (JS `responseText += token`). -/
def finalText (acc : String) (fragments : List String) : String :=
  fragments.foldl (fun r f => r ++ f) acc

/-- The `updateModelResponse` events issued while streaming: one per
fragment, carrying the running accumulation. -/
def streamUpdates (modelName : String) (acc : String) : List String → List SinkEvent
  | [] => []
  | f :: rest =>
    SinkEvent.update modelName (acc ++ f) :: streamUpdates modelName (acc ++ f) rest

/-- The body of one target's task before the catch: the events it emits
in order, and its result (the thrown error when the backend fails; the
partial updates already issued stay issued). -/
def targetBody (modelName : String) : ModelOutcome → List SinkEvent × Except JsError String
  | .success fragments =>
    (SinkEvent.register modelName :: streamUpdates modelName "" fragments ++
      (if containsSub (jsToLower (finalText "" fragments)) "error:" then []
       else [SinkEvent.ctxSet (finalText "" fragments)]),
     Except.ok (finalText "" fragments))
  | .failure fragments error =>
    (SinkEvent.register modelName :: streamUpdates modelName "" fragments,
     Except.error error)

/-- One target's task as dispatched: the catch converts a thrown error
into a final error update, so the task itself always settles. -/
def targetTask (modelName : String) (outcome : ModelOutcome) :
    List SinkEvent × Except JsError Unit :=
  match targetBody modelName outcome with
  | (events, Except.ok _) => (events, Except.ok ())
  | (events, Except.error e) =>
    (events ++ [SinkEvent.update modelName (getModelErrorMessage e)], Except.ok ())

/-- JS `Promise.all` over settled results: the first rejection, if any. -/
def promiseAll : List (Except JsError Unit) → Except JsError Unit
  | [] => Except.ok ()
  | Except.error e :: _ => Except.error e
  | Except.ok _ :: rest => promiseAll rest

/-- JS `array.map((x, index) => ...)` index bookkeeping: the list paired
with indices counting up from `start`. -/
def withIdx {α : Type} (start : Nat) : List α → List (Nat × α)
  | [] => []
  | x :: xs => (start, x) :: withIdx (start + 1) xs

/-- `selectedModels.slice(0, 6)`: only the first 6 resolved models are
dispatched. -/
def modelsToUse (runs : List (String × ModelOutcome)) : List (String × ModelOutcome) :=
  runs.take 6

/-- The display names registered and dispatched to, in dispatch order. -/
def dispatchNames (aiModels : List AIModel) (runs : List (String × ModelOutcome)) :
    List String :=
  (withIdx 0 (modelsToUse runs)).map (fun p => turnModelName aiModels p.1 p.2.1)

/-- The per-target event traces of the dispatched tasks. -/
def chatTurnTraces (aiModels : List AIModel) (runs : List (String × ModelOutcome)) :
    List (List SinkEvent) :=
  (withIdx 0 (modelsToUse runs)).map
    (fun p => (targetTask (turnModelName aiModels p.1 p.2.1) p.2.2).1)

/-- The settled results of the dispatched tasks. -/
def chatTurnResults (aiModels : List AIModel) (runs : List (String × ModelOutcome)) :
    List (Except JsError Unit) :=
  (withIdx 0 (modelsToUse runs)).map
    (fun p => (targetTask (turnModelName aiModels p.1 p.2.1) p.2.2).2)

/-- `await Promise.all(modelRequests)`: the join over all per-target tasks. -/
def dispatchJoin (aiModels : List AIModel) (runs : List (String × ModelOutcome)) :
    Except JsError Unit :=
  promiseAll (chatTurnResults aiModels runs)

/-- The deterministic state mutations of the turn handler before the
concurrent dispatch: reset the model list, register each dispatched
model, store the user message. -/
def chatTurnSetup (aiModels : List AIModel) (runs : List (String × ModelOutcome))
    (prompt : String) (st : TurnState) : TurnState :=
  let v0 := resetModels st.view
  let v1 := (withIdx 0 (modelsToUse runs)).foldl
    (fun v p => startModelResponse v (turnModelName aiModels p.1 p.2.1)) v0
  { st with view := setUserMessage v1 prompt }

/-- `m` is an interleaving of the traces `ts`: the concurrent tasks'
events arrive in any global order that preserves each task's own order. -/
inductive MergeAll : List (List SinkEvent) → List SinkEvent → Prop where
  | nil (ts : List (List SinkEvent)) : (∀ t ∈ ts, t = []) → MergeAll ts []
  | step (ts : List (List SinkEvent)) (j : Nat) (e : SinkEvent) (rest : List SinkEvent)
      (m : List SinkEvent) : ts.get? j = some (e :: rest) → MergeAll (ts.set j rest) m →
      MergeAll ts (e :: m)

/-- How one event drives the stored response of sink key `n`. -/
def respStep (marked : String → String) (n : String) (acc : Option String) :
    SinkEvent → Option String
  | .register m => if m = n then some typingIndicatorHtml else acc
  | .update m t => if m = n then some (formatMarkdown marked t) else acc
  | .ctxSet _ => acc

/-! ### Enhancement templates and selection (`promptTemplates`, `PromptService`) -/

/-- The editor context captured for prompt enhancement. -/
structure EditorContext where
  text : String
  language : String
  fileName : String
deriving DecidableEq, Repr

/-- JS `s.substring(0, n)`. -/
def jsSubstring (s : String) (n : Nat) : String :=
  String.mk (s.data.take n)

/-- JS `s.trim()`: whitespace stripped from both ends. -/
def jsTrim (s : String) : String :=
  String.mk (((s.data.dropWhile Char.isWhitespace).reverse.dropWhile Char.isWhitespace).reverse)


def advPre : String :=
  "\n### System Role ###\nYou are an expert prompt engineer specializing in optimizing prompts for AI models. Your goal is to transform user prompts into highly effective, clear, and actionable instructions.\n\n### Enhancement Guidelines ###\n1. **Clarity**: Remove ambiguity and make instructions crystal clear\n2. **Specificity**: Add relevant details and context where needed\n3. **Structure**: Organize the prompt logically with clear sections\n4. **Completeness**: Ensure all necessary information is included\n5. **Optimization**: Structure for maximum AI comprehension and performance\n6. **Intent Preservation**: Maintain the original goal and meaning\n\n### Original Prompt ###\n"

def advPost : String :=
  "\n\n### Task ###\nTransform the above prompt into an enhanced version that will produce superior results from AI models. Focus on:\n- Assign a clear role to the AI\n- Identify the most effective prompt engineering techniques eg: chain-of-thought, few-shot learning, etc.\n- Adding helpful context and specifications\n- Structuring information clearly\n- Making requirements explicit\n- Optimizing for AI understanding\n\n**Important**: Return ONLY the enhanced prompt without any explanations, prefixes, or additional commentary."

def litePre : String :=
  "You are an expert prompt engineer. Transform user prompts into precise, self-contained, and actionable instructions.\n\nRules\n\nEnsure clarity, conciseness, and unambiguous wording.\nAdd relevant context and specifications where needed.\nOrganize logically with clear roles and steps.\nAssign appropriate AI roles for the task.\nApply effective prompt engineering techniques (chain-of-thought, few-shot learning, etc.).\nPreserve original intent but improve specificity and completeness.\nOptimize for maximum AI comprehension and performance.\n\nOriginal Prompt\n\n"

def litePost : String :=
  "\n\nTask\n\nRewrite the prompt into a refined version that is clear, well-structured, and directly usable by AI models."

def caSegA : String :=
  "\n### System Role ###\nYou are an expert prompt engineer specializing in optimizing prompts for AI models. Your goal is to transform user prompts into highly effective, clear, and actionable instructions using the provided context.\n\n### Context Information ###\n**Language**: "

def caSegB : String :=
  "\n**File Content Preview**: \n\\`\\`\\`"

def caSegC : String :=
  "\n"

def caSegD : String :=
  "\n\\`\\`\\`\n\n### Enhancement Guidelines ###\n1. **Context Awareness**: Use the file context to understand the domain and purpose\n2. **Language-Specific**: Consider the programming language or file type when enhancing\n3. **Clarity**: Remove ambiguity and make instructions crystal clear\n4. **Specificity**: Add relevant details based on the context provided\n5. **Structure**: Organize the prompt logically with clear sections\n6. **Completeness**: Ensure all necessary information is included\n7. **Optimization**: Structure for maximum AI comprehension and performance\n8. **Intent Preservation**: Maintain the original goal and meaning\n\n### Original Prompt ###\n"

def caSegE : String :=
  "\n\n### Task ###\nTransform the above prompt into an enhanced version that will produce superior results from AI models. Consider the context from the active file to:\n- Add relevant technical details and specifications\n- Include appropriate examples based on the file content if needed\n- Use domain-specific terminology correctly\n- Structure the request for the specific context (coding, documentation, etc.)\n- Assign a clear role to the AI based on the context using the file content\n- Identify the most effective prompt engineering techniques for this domain\n\n**Important**: Return ONLY the enhanced prompt without any explanations, prefixes, or additional commentary."

def lcaSegA : String :=
  "You are an expert prompt engineer. Transform user prompts into precise, self-contained, and actionable instructions using the given context.\n\nContext\n\nLanguage: "

def lcaSegB : String :=
  "\nFile Preview:\n\\`\\`\\`"

def lcaSegC : String :=
  "\n"

def lcaSegD : String :=
  "\n\\`\\`\\`\n\nRules\n\nUse file context and language to refine the prompt.\nEnsure clarity, conciseness, and unambiguous wording.\nAdd technical/domain-specific details when relevant.\nOrganize logically with clear roles/steps.\nPreserve original intent but improve specificity and completeness.\nOptimize for maximum AI comprehension.\n\nOriginal Prompt\n\n"

def lcaSegE : String :=
  "\n\nTask\n\nRewrite the prompt into a refined version that is clear, context-aware, domain-optimized, and directly usable."

/-- `ADVANCED_ENHANCEMENT_PROMPT` (imported by the prompt service as
`PRO_ENHANCEMENT_PROMPT`). -/
def ADVANCED_ENHANCEMENT_PROMPT (originalPrompt : String) : String :=
  advPre ++ originalPrompt ++ advPost

/-- `LITE_ENHANCEMENT_PROMPT`. -/
def LITE_ENHANCEMENT_PROMPT (originalPrompt : String) : String :=
  litePre ++ originalPrompt ++ litePost

/-- `CONTEXT_AWARE_ENHANCEMENT_PROMPT` (imported by the prompt service as
`PRO_CONTEXT_AWARE_ENHANCEMENT_PROMPT`): embeds the first 2000 characters
of the editor text and appends a truncation marker when the text is
longer. -/
def CONTEXT_AWARE_ENHANCEMENT_PROMPT (originalPrompt : String)
    (editorContext : EditorContext) : String :=
  caSegA ++ editorContext.language ++ caSegB ++ editorContext.language ++ caSegC ++
    jsSubstring editorContext.text 2000 ++
    (if 2000 < editorContext.text.length then "\n... (content truncated)" else "") ++
    caSegD ++ originalPrompt ++ caSegE

/-- `LITE_CONTEXT_AWARE_ENHANCEMENT_PROMPT`. -/
def LITE_CONTEXT_AWARE_ENHANCEMENT_PROMPT (originalPrompt : String)
    (editorContext : EditorContext) : String :=
  lcaSegA ++ editorContext.language ++ lcaSegB ++ editorContext.language ++ lcaSegC ++
    jsSubstring editorContext.text 2000 ++
    (if 2000 < editorContext.text.length then "\n... (truncated)" else "") ++
    lcaSegD ++ originalPrompt ++ lcaSegE

/-- The template selection of `enhancePromptWithDefaultModel`: the
(pro, lite) prompt pair, context-aware exactly when an editor context is
present and its text is non-blank after trimming. -/
def selectEnhancementPrompts (originalPrompt : String)
    (editorContext : Option EditorContext) : String × String :=
  match editorContext with
  | some ec =>
    if 0 < (jsTrim ec.text).length then
      (CONTEXT_AWARE_ENHANCEMENT_PROMPT originalPrompt ec,
       LITE_CONTEXT_AWARE_ENHANCEMENT_PROMPT originalPrompt ec)
    else
      (ADVANCED_ENHANCEMENT_PROMPT originalPrompt, LITE_ENHANCEMENT_PROMPT originalPrompt)
  | none =>
    (ADVANCED_ENHANCEMENT_PROMPT originalPrompt, LITE_ENHANCEMENT_PROMPT originalPrompt)

/-- The two enhancement variants processed in parallel. -/
inductive EnhancementVariant where
  | lite
  | pro
deriving DecidableEq, Repr

/-- The composed enhancement instruction for one variant. -/
def composeEnhancement (variant : EnhancementVariant) (originalPrompt : String)
    (editorContext : Option EditorContext) : String :=
  match variant with
  | .pro => (selectEnhancementPrompts originalPrompt editorContext).1
  | .lite => (selectEnhancementPrompts originalPrompt editorContext).2

/-- The spec's synthesized display name, amended: the substring after the
last slash when that substring is non-empty, otherwise the whole
identifier (in particular when it has no slash, or ends in one). -/
def amendedDisplayName (id : String) : String :=
  if afterLastChar '/' id = "" then id else afterLastChar '/' id

/-! ### Helper lemmas -/

theorem splitOnChar_ne_nil (c : Char) (l : List Char) : splitOnChar c l ≠ [] := by
  cases l with
  | nil => simp [splitOnChar]
  | cons x xs =>
    simp only [splitOnChar]
    cases splitOnChar c xs with
    | nil => simp
    | cons h t =>
      by_cases hx : x = c
      · simp [hx]
      · simp [hx]

theorem splitOnChar_length (c : Char) (l : List Char) :
    (splitOnChar c l).length = l.count c + 1 := by
  induction l with
  | nil => simp [splitOnChar]
  | cons x xs ih =>
    simp only [splitOnChar]
    cases hsp : splitOnChar c xs with
    | nil => exact absurd hsp (splitOnChar_ne_nil c xs)
    | cons h t =>
      rw [hsp] at ih
      by_cases hx : x = c
      · subst hx
        simp_all [List.count_cons]
      · simp_all [List.count_cons, hx]

theorem getLastD_cons_of_ne_nil {α : Type} (a d : α) (l : List α) (h : l ≠ []) :
    (a :: l).getLastD d = l.getLastD d := by
  cases l with
  | nil => exact absurd rfl h
  | cons b t => simp [List.getLastD_cons]

theorem takeWhile_append_of_mem (c : Char) (l₁ l₂ : List Char) (h : c ∈ l₁) :
    (l₁ ++ l₂).takeWhile (fun x => x != c) = l₁.takeWhile (fun x => x != c) := by
  induction l₁ with
  | nil => cases h
  | cons x xs ih =>
    by_cases hx : x = c
    · subst hx; simp [List.takeWhile_cons]
    · have hmem : c ∈ xs := by
        cases h with
        | head => exact absurd rfl hx
        | tail _ h' => exact h'
      simp [List.takeWhile_cons, hx, ih hmem]

theorem takeWhile_append_of_not_mem (c : Char) (l₁ l₂ : List Char) (h : c ∉ l₁) :
    (l₁ ++ l₂).takeWhile (fun x => x != c) =
      l₁ ++ l₂.takeWhile (fun x => x != c) := by
  induction l₁ with
  | nil => simp
  | cons x xs ih =>
    have hx : x ≠ c := fun hxc => h (hxc ▸ List.mem_cons_self x xs)
    have hxs : c ∉ xs := fun hm => h (List.mem_cons_of_mem x hm)
    simp [List.takeWhile_cons, hx, ih hxs]

theorem takeWhile_eq_self_of_not_mem (c : Char) (l : List Char) (h : c ∉ l) :
    l.takeWhile (fun x => x != c) = l := by
  have := takeWhile_append_of_not_mem c l [] h
  simpa using this

theorem splitOnChar_eq_single_of_not_mem (c : Char) (l : List Char) (h : c ∉ l) :
    splitOnChar c l = [l] := by
  induction l with
  | nil => simp [splitOnChar]
  | cons x xs ih =>
    have hx : x ≠ c := fun hxc => h (hxc ▸ List.mem_cons_self x xs)
    have hxs : c ∉ xs := fun hm => h (List.mem_cons_of_mem x hm)
    simp [splitOnChar, ih hxs, hx]

/-- The last chunk of the JS split equals the characters after the last
occurrence of the separator. -/
theorem splitOnChar_getLastD (c : Char) (l : List Char) :
    (splitOnChar c l).getLastD [] = (l.reverse.takeWhile (fun x => x != c)).reverse := by
  induction l with
  | nil => simp [splitOnChar]
  | cons x xs ih =>
    by_cases hmem : c ∈ xs
    · have hrev : c ∈ xs.reverse := List.mem_reverse.mpr hmem
      have hlen : (splitOnChar c xs).length ≥ 2 := by
        have := splitOnChar_length c xs
        have hc : 0 < xs.count c := List.count_pos_iff.mpr hmem
        omega
      cases hsp : splitOnChar c xs with
      | nil => exact absurd hsp (splitOnChar_ne_nil c xs)
      | cons h t =>
        have ht : t ≠ [] := by
          rw [hsp] at hlen
          cases t with
          | nil => simp at hlen
          | cons _ _ => simp
        rw [hsp] at ih
        have hrhs : ((x :: xs).reverse.takeWhile (fun y => y != c)).reverse =
            (xs.reverse.takeWhile (fun y => y != c)).reverse := by
          rw [List.reverse_cons, takeWhile_append_of_mem c xs.reverse [x] hrev]
        simp only [splitOnChar, hsp]
        by_cases hx : x = c
        · rw [if_pos hx, getLastD_cons_of_ne_nil [] [] (h :: t) (by simp), ih, hrhs]
        · rw [if_neg hx, getLastD_cons_of_ne_nil (x :: h) [] t ht, hrhs, ← ih,
            getLastD_cons_of_ne_nil h [] t ht]
    · have hone : splitOnChar c xs = [xs] := splitOnChar_eq_single_of_not_mem c xs hmem
      have hxsrev : c ∉ xs.reverse := fun hm => hmem (List.mem_reverse.mp hm)
      simp only [splitOnChar, hone]
      by_cases hx : x = c
      · rw [if_pos hx]
        have hr : ((x :: xs).reverse.takeWhile (fun y => y != c)).reverse = xs := by
          rw [List.reverse_cons, takeWhile_append_of_not_mem c xs.reverse [x] hxsrev, hx]
          simp [List.takeWhile_cons]
        rw [hr]
        simp [List.getLastD_cons]
      · rw [if_neg hx]
        have hxne : (x != c) = true := bne_iff_ne.mpr hx
        have hr : ((x :: xs).reverse.takeWhile (fun y => y != c)).reverse = x :: xs := by
          rw [List.reverse_cons, takeWhile_append_of_not_mem c xs.reverse [x] hxsrev]
          simp [List.takeWhile_cons, hxne]
        rw [hr]
        simp [List.getLastD_cons]

theorem jsSplitPop_eq_afterLastChar (s : String) :
    jsSplitPop s = afterLastChar '/' s := by
  unfold jsSplitPop afterLastChar
  rw [splitOnChar_getLastD]

theorem mapGet?_mapSet_self (m : List (String × String)) (k v : String) :
    mapGet? (mapSet m k v) k = some v := by
  induction m with
  | nil => simp [mapSet, mapGet?]
  | cons p rest ih =>
    obtain ⟨k', v'⟩ := p
    by_cases h : k' = k
    · simp [mapSet, mapGet?, h]
    · simp [mapSet, mapGet?, h, ih]

theorem mapGet?_mapSet_ne (m : List (String × String)) (k v k' : String) (h : k' ≠ k) :
    mapGet? (mapSet m k v) k' = mapGet? m k' := by
  have h' : k ≠ k' := Ne.symm h
  induction m with
  | nil => simp [mapSet, mapGet?, h']
  | cons p rest ih =>
    obtain ⟨k₀, v₀⟩ := p
    by_cases hk : k₀ = k
    · subst hk
      simp [mapSet, mapGet?, h']
    · by_cases hk' : k₀ = k'
      · subst hk'
        simp [mapSet, mapGet?, hk]
      · simp [mapSet, mapGet?, hk, hk', ih]

theorem mapSet_mapSet_self (m : List (String × String)) (k v w : String) :
    mapSet (mapSet m k v) k w = mapSet m k w := by
  induction m with
  | nil => simp [mapSet]
  | cons p rest ih =>
    obtain ⟨k₀, v₀⟩ := p
    by_cases hk : k₀ = k
    · simp [mapSet, hk]
    · simp [mapSet, hk, ih]

theorem mem_setAdd (s : List String) (x y : String) :
    y ∈ setAdd s x ↔ y ∈ s ∨ y = x := by
  unfold setAdd
  by_cases h : x ∈ s
  · simp only [if_pos h]
    constructor
    · exact Or.inl
    · rintro (hy | rfl)
      · exact hy
      · exact h
  · simp [if_neg h]

theorem mem_setDelete (s : List String) (x y : String) :
    y ∈ setDelete s x ↔ y ∈ s ∧ y ≠ x := by
  simp [setDelete, List.mem_filter, bne_iff_ne]

/-! ### Sink claims -/

/-- C5: `clearChat` leaves the registered name list unchanged while every
target renders as the initial waiting placeholder again, and `resetModels`
empties the name list (and the stored responses) entirely. -/
theorem clearChat_keeps_names_resetModels_empties (s : ChatWebView) :
    (clearChat s).modelNames = s.modelNames ∧
    (∀ modelName : String, renderModelResponse (clearChat s) modelName = waitingMessageHtml) ∧
    (resetModels s).modelNames = [] ∧
    (resetModels s).responses = [] := by
  refine ⟨rfl, ?_, rfl, rfl⟩
  intro modelName
  simp [clearChat, renderModelResponse, mapGet?]

/-- C8: registering an already-known target again does not grow the name
list, resets the target's displayed state to the waiting (typing)
placeholder, and registering twice in succession equals registering once. -/
theorem registerTarget_idempotent (s : ChatWebView) (modelName : String)
    (h : modelName ∈ s.modelNames) :
    (startModelResponse s modelName).modelNames = s.modelNames ∧
    mapGet? (startModelResponse s modelName).responses modelName = some typingIndicatorHtml ∧
    startModelResponse (startModelResponse s modelName) modelName =
      startModelResponse s modelName := by
  refine ⟨by simp [startModelResponse, h], by simp [startModelResponse, mapGet?_mapSet_self], ?_⟩
  simp [startModelResponse, h, mapSet_mapSet_self]

theorem registerTarget_idempotent_witness :
    ("GPT-4o" : String) ∈ (ChatWebView.mk "" [] ["GPT-4o"] []).modelNames ∧
    ((startModelResponse (ChatWebView.mk "" [] ["GPT-4o"] []) "GPT-4o").modelNames =
        (ChatWebView.mk "" [] ["GPT-4o"] []).modelNames ∧
      mapGet? (startModelResponse (ChatWebView.mk "" [] ["GPT-4o"] []) "GPT-4o").responses
          "GPT-4o" = some typingIndicatorHtml ∧
      startModelResponse
          (startModelResponse (ChatWebView.mk "" [] ["GPT-4o"] []) "GPT-4o") "GPT-4o" =
        startModelResponse (ChatWebView.mk "" [] ["GPT-4o"] []) "GPT-4o") :=
  ⟨by decide, registerTarget_idempotent (ChatWebView.mk "" [] ["GPT-4o"] []) "GPT-4o" (by decide)⟩

/-- C9: hiding one registered target changes no response text and no other
target's visibility, and unhiding it restores it with its stored text
unchanged. -/
theorem toggleVisibility_independent (s : ChatWebView) (X : String)
    (_hX : X ∈ s.modelNames) :
    (toggleModelVisibility s X false).responses = s.responses ∧
    (toggleModelVisibility s X false).modelNames = s.modelNames ∧
    (toggleModelVisibility s X false).lastUserMessage = s.lastUserMessage ∧
    renderHidden (toggleModelVisibility s X false) X ∧
    (∀ Y, Y ≠ X → (renderHidden (toggleModelVisibility s X false) Y ↔ renderHidden s Y)) ∧
    (toggleModelVisibility (toggleModelVisibility s X false) X true).responses = s.responses ∧
    (toggleModelVisibility (toggleModelVisibility s X false) X true).modelNames = s.modelNames ∧
    ¬ renderHidden (toggleModelVisibility (toggleModelVisibility s X false) X true) X ∧
    (∀ Y, Y ≠ X →
      (renderHidden (toggleModelVisibility (toggleModelVisibility s X false) X true) Y ↔
        renderHidden s Y)) ∧
    mapGet? (toggleModelVisibility (toggleModelVisibility s X false) X true).responses X =
      mapGet? s.responses X := by
  refine ⟨rfl, rfl, rfl, ?_, ?_, rfl, rfl, ?_, ?_, rfl⟩
  · exact (mem_setAdd s.hiddenModels X X).mpr (Or.inr rfl)
  · intro Y hY
    simp [renderHidden, toggleModelVisibility, mem_setAdd, hY]
  · simp [renderHidden, toggleModelVisibility, mem_setDelete]
  · intro Y hY
    simp [renderHidden, toggleModelVisibility, mem_setDelete, mem_setAdd, hY]

theorem toggleVisibility_independent_witness :
    ("A" : String) ∈ (ChatWebView.mk "" [("A", "r")] ["A", "B"] ["B"]).modelNames ∧
    renderHidden (toggleModelVisibility (ChatWebView.mk "" [("A", "r")] ["A", "B"] ["B"])
      "A" false) "A" ∧
    ¬ renderHidden (toggleModelVisibility (toggleModelVisibility
      (ChatWebView.mk "" [("A", "r")] ["A", "B"] ["B"]) "A" false) "A" true) "A" ∧
    mapGet? (toggleModelVisibility (toggleModelVisibility
        (ChatWebView.mk "" [("A", "r")] ["A", "B"] ["B"]) "A" false) "A" true).responses "A" =
      mapGet? (ChatWebView.mk "" [("A", "r")] ["A", "B"] ["B"]).responses "A" := by
  obtain ⟨-, -, -, h4, -, -, -, h8, -, h10⟩ :=
    toggleVisibility_independent (ChatWebView.mk "" [("A", "r")] ["A", "B"] ["B"]) "A" (by decide)
  exact ⟨by decide, h4, h8, h10⟩

/-- C10: `resetModels` empties the name list and the stored responses but
keeps the hidden-model set and the last user message, so a name hidden
before the reset renders hidden again when re-registered. -/
theorem resetTargets_preserves_hidden (s : ChatWebView) (n : String) :
    (resetModels s).hiddenModels = s.hiddenModels ∧
    (resetModels s).lastUserMessage = s.lastUserMessage ∧
    (resetModels s).modelNames = [] ∧
    (resetModels s).responses = [] ∧
    (n ∈ s.hiddenModels → renderHidden (startModelResponse (resetModels s) n) n) := by
  refine ⟨rfl, rfl, rfl, rfl, fun hn => ?_⟩
  simpa [renderHidden, startModelResponse, resetModels] using hn

theorem resetTargets_preserves_hidden_witness :
    ("X" : String) ∈ (ChatWebView.mk "q" [] [] ["X"]).hiddenModels ∧
    renderHidden (startModelResponse (resetModels (ChatWebView.mk "q" [] [] ["X"])) "X") "X" := by
  have h := resetTargets_preserves_hidden (ChatWebView.mk "q" [] [] ["X"]) "X"
  exact ⟨by decide, h.2.2.2.2 (by decide)⟩

/-! ### Model-resolution claims -/

theorem synthesizeModel_eq (modelId : String) :
    synthesizeModel modelId =
      { id := modelId, name := amendedDisplayName modelId,
        displayName := amendedDisplayName modelId,
        matchPatterns := [jsToLower modelId] } := by
  unfold synthesizeModel amendedDisplayName jsOrElse
  rw [jsSplitPop_eq_afterLastChar]

/-- C3 as stated fails on the code: for the persisted selection
`["a/"]` the synthesized display name is the whole identifier `"a/"`,
although the substring after the last slash is empty. -/
theorem getAIModels_displayName_counterexample :
    (getAIModels ["a/"]).map (fun m => m.displayName) = ["a/"] ∧
    afterLastChar '/' "a/" = "" ∧
    ("a/" : String) ≠ "" := by
  refine ⟨by decide, by decide, by decide⟩

/-- C3 (amended): an empty selection resolves to the default catalog
unchanged; a non-empty selection resolves elementwise in order (same
length, no dedup) to the catalog entry when the identifier is known and
otherwise to a synthesized descriptor whose display name is the
substring after the last slash when that substring is non-empty and the
whole identifier otherwise, with the lowercased identifier as the only
match pattern. -/
theorem getAIModels_resolution (S : List String) :
    getAIModels [] = DEFAULT_AI_MODELS ∧
    (S ≠ [] →
      (getAIModels S).length = S.length ∧
      ∀ i (hi : i < S.length),
        (getAIModels S).get? i = some
          (match DEFAULT_AI_MODELS.find? (fun m => m.id == S.get ⟨i, hi⟩) with
           | some existingModel => existingModel
           | none =>
             { id := S.get ⟨i, hi⟩,
               name := amendedDisplayName (S.get ⟨i, hi⟩),
               displayName := amendedDisplayName (S.get ⟨i, hi⟩),
               matchPatterns := [jsToLower (S.get ⟨i, hi⟩)] })) := by
  refine ⟨rfl, fun hS => ?_⟩
  have hne : S.isEmpty = false := by
    cases S with
    | nil => exact absurd rfl hS
    | cons a t => rfl
  have hmap : (getAIModels S).get? = (S.map (fun modelId =>
      match DEFAULT_AI_MODELS.find? (fun m => m.id == modelId) with
      | some existingModel => existingModel
      | none => synthesizeModel modelId)).get? := by
    simp [getAIModels, hne]
  refine ⟨?_, ?_⟩
  · simp [getAIModels, hne]
  · intro i hi
    rw [hmap, List.get?_map, List.get?_eq_get hi, Option.map_some']
    cases hfind : DEFAULT_AI_MODELS.find? (fun m => m.id == S.get ⟨i, hi⟩) with
    | some existingModel => rfl
    | none => rw [synthesizeModel_eq]

theorem getAIModels_resolution_witness :
    (["gpt-4o", "x/y"] : List String) ≠ [] ∧
    (getAIModels ["gpt-4o", "x/y"]).length = 2 ∧
    (getAIModels ["gpt-4o", "x/y"]).get? 1 =
      some (AIModel.mk "x/y" "y" "y" ["x/y"]) := by
  have h := (getAIModels_resolution ["gpt-4o", "x/y"]).2 (by decide)
  refine ⟨by decide, h.1, ?_⟩
  have h2 := h.2 1 (by decide)
  exact h2.trans (by decide)

/-! ### Turn-context claims -/

/-- C2 fails on the code: after a turn whose only target answers `"4"`
(no error) to the question `"What is 2+2?"`, the next composed message
holds `Previous Response: 4` but `Previous Question: null` — the
previous question is never stored, so it does not appear. The error
half of the claim does hold: an answer containing `error:` leaves the
context unchanged and, with no stored context, the next message is the
context-less template. -/
theorem turn_context_question_never_stored :
    chatTurnContext "What is 2+2?" "4" none none = (none, some "4") ∧
    containsSub
      (composeUserMessage "And what is 5+5?" none (some "4"))
      "Previous Response: 4" = true ∧
    containsSub
      (composeUserMessage "And what is 5+5?" none (some "4"))
      "Previous Question: null" = true ∧
    containsSub
      (composeUserMessage "And what is 5+5?" none (some "4"))
      "What is 2+2?" = false ∧
    chatTurnContext "What is 2+2?" "Error: boom" none none = (none, none) ∧
    composeUserMessage "And what is 5+5?" none none =
      rolePreamble ++ "### Current Question ###\nAnd what is 5+5?" := by
  refine ⟨by decide, by decide, by decide, by decide, by decide, by decide⟩

/-! ### Enhancement claims -/

theorem string_ne_of_data (a b : String) (h : a.data ≠ b.data) : a ≠ b :=
  fun e => h (congrArg String.data e)

theorem append_ne_of_ne_get? (p q t u : List Char) (i : Nat)
    (hp : i < p.length) (hq : i < q.length) (hne : p.get? i ≠ q.get? i) :
    p ++ t ≠ q ++ u := by
  intro h
  apply hne
  rw [← List.get?_append hp, ← List.get?_append hq, h]

theorem string_pos_of_ne_empty (s : String) (h : s ≠ "") : 0 < s.length := by
  cases s with
  | mk data =>
    cases data with
    | nil => exact absurd rfl h
    | cons a t => simp [String.length]

theorem ADVANCED_ne_LITE (p : String) :
    ADVANCED_ENHANCEMENT_PROMPT p ≠ LITE_ENHANCEMENT_PROMPT p := by
  apply string_ne_of_data
  simp only [ADVANCED_ENHANCEMENT_PROMPT, LITE_ENHANCEMENT_PROMPT, String.data_append,
    List.append_assoc]
  exact append_ne_of_ne_get? _ _ _ _ 0 (by decide) (by decide) (by decide)

theorem CA_ne_LITECA (p : String) (ec : EditorContext) :
    CONTEXT_AWARE_ENHANCEMENT_PROMPT p ec ≠ LITE_CONTEXT_AWARE_ENHANCEMENT_PROMPT p ec := by
  apply string_ne_of_data
  simp only [CONTEXT_AWARE_ENHANCEMENT_PROMPT, LITE_CONTEXT_AWARE_ENHANCEMENT_PROMPT,
    String.data_append, List.append_assoc]
  exact append_ne_of_ne_get? _ _ _ _ 0 (by decide) (by decide) (by decide)

theorem CA_ne_ADVANCED (p : String) (ec : EditorContext) :
    CONTEXT_AWARE_ENHANCEMENT_PROMPT p ec ≠ ADVANCED_ENHANCEMENT_PROMPT p := by
  apply string_ne_of_data
  simp only [CONTEXT_AWARE_ENHANCEMENT_PROMPT, ADVANCED_ENHANCEMENT_PROMPT,
    String.data_append, List.append_assoc]
  exact append_ne_of_ne_get? _ _ _ _ 201 (by decide) (by decide) (by decide)

theorem LITECA_ne_LITE (p : String) (ec : EditorContext) :
    LITE_CONTEXT_AWARE_ENHANCEMENT_PROMPT p ec ≠ LITE_ENHANCEMENT_PROMPT p := by
  apply string_ne_of_data
  simp only [LITE_CONTEXT_AWARE_ENHANCEMENT_PROMPT, LITE_ENHANCEMENT_PROMPT,
    String.data_append, List.append_assoc]
  exact append_ne_of_ne_get? _ _ _ _ 115 (by decide) (by decide) (by decide)

/-- C6: with editor text of exactly 2001 characters each context-aware
template embeds exactly the first 2000 characters followed by its
truncation marker; with text of at most 2000 characters the full text is
embedded with no marker between the preview and the closing fence, and
the static template content contains no truncation marker of its own. -/
theorem enhancement_truncation_boundary (originalPrompt : String) (ec : EditorContext) :
    (ec.text.length = 2001 →
      CONTEXT_AWARE_ENHANCEMENT_PROMPT originalPrompt ec =
        caSegA ++ ec.language ++ caSegB ++ ec.language ++ caSegC ++
          jsSubstring ec.text 2000 ++ "\n... (content truncated)" ++
          caSegD ++ originalPrompt ++ caSegE ∧
      LITE_CONTEXT_AWARE_ENHANCEMENT_PROMPT originalPrompt ec =
        lcaSegA ++ ec.language ++ lcaSegB ++ ec.language ++ lcaSegC ++
          jsSubstring ec.text 2000 ++ "\n... (truncated)" ++
          lcaSegD ++ originalPrompt ++ lcaSegE ∧
      (jsSubstring ec.text 2000).length = 2000 ∧
      (jsSubstring ec.text 2000).data <+: ec.text.data) ∧
    (ec.text.length ≤ 2000 →
      jsSubstring ec.text 2000 = ec.text ∧
      CONTEXT_AWARE_ENHANCEMENT_PROMPT originalPrompt ec =
        caSegA ++ ec.language ++ caSegB ++ ec.language ++ caSegC ++
          ec.text ++ caSegD ++ originalPrompt ++ caSegE ∧
      LITE_CONTEXT_AWARE_ENHANCEMENT_PROMPT originalPrompt ec =
        lcaSegA ++ ec.language ++ lcaSegB ++ ec.language ++ lcaSegC ++
          ec.text ++ lcaSegD ++ originalPrompt ++ lcaSegE) ∧
    containsSub (caSegA ++ caSegB ++ caSegC ++ caSegD ++ caSegE)
      "... (content truncated)" = false ∧
    containsSub (lcaSegA ++ lcaSegB ++ lcaSegC ++ lcaSegD ++ lcaSegE)
      "... (truncated)" = false := by
  refine ⟨fun h => ?_, fun h => ?_, by decide, by decide⟩
  · have hgt : 2000 < ec.text.length := by omega
    refine ⟨by simp [CONTEXT_AWARE_ENHANCEMENT_PROMPT, hgt],
      by simp [LITE_CONTEXT_AWARE_ENHANCEMENT_PROMPT, hgt], ?_, ?_⟩
    · have hd : ec.text.data.length = 2001 := h
      show (ec.text.data.take 2000).length = 2000
      rw [List.length_take, hd]
      omega
    · show ec.text.data.take 2000 <+: ec.text.data
      exact List.take_prefix 2000 ec.text.data
  · have hle : ¬ (2000 < ec.text.length) := by omega
    have hsub : jsSubstring ec.text 2000 = ec.text := by
      show String.mk (ec.text.data.take 2000) = ec.text
      have hd : ec.text.data.length ≤ 2000 := h
      rw [List.take_of_length_le hd]
    refine ⟨hsub, ?_, ?_⟩
    · simp [CONTEXT_AWARE_ENHANCEMENT_PROMPT, hle, hsub]
    · simp [LITE_CONTEXT_AWARE_ENHANCEMENT_PROMPT, hle, hsub]

theorem enhancement_truncation_boundary_witness :
    (String.mk (List.replicate 2001 'a')).length = 2001 ∧
    CONTEXT_AWARE_ENHANCEMENT_PROMPT "p"
        (EditorContext.mk (String.mk (List.replicate 2001 'a')) "ts" "f.ts") =
      caSegA ++ "ts" ++ caSegB ++ "ts" ++ caSegC ++
        jsSubstring (String.mk (List.replicate 2001 'a')) 2000 ++
        "\n... (content truncated)" ++ caSegD ++ "p" ++ caSegE ∧
    (String.mk (List.replicate 2000 'b')).length ≤ 2000 ∧
    jsSubstring (String.mk (List.replicate 2000 'b')) 2000 =
      String.mk (List.replicate 2000 'b') := by
  have h1 := (enhancement_truncation_boundary "p"
    (EditorContext.mk (String.mk (List.replicate 2001 'a')) "ts" "f.ts")).1
    (by simp [String.length])
  have h2 := (enhancement_truncation_boundary "p"
    (EditorContext.mk (String.mk (List.replicate 2000 'b')) "ts" "f.ts")).2.1
    (by simp [String.length])
  exact ⟨by simp [String.length], h1.1, by simp [String.length], h2.1⟩

/-- C7: per variant, the composition picks the context-aware template
exactly when an editor context is present whose text is non-blank after
trimming, the context-less template when the context is absent or blank;
the four template shapes are pairwise distinct. -/
theorem enhancement_template_selection (originalPrompt : String)
    (editorContext : Option EditorContext) :
    (∀ ec, editorContext = some ec → jsTrim ec.text ≠ "" →
      composeEnhancement EnhancementVariant.pro originalPrompt editorContext =
        CONTEXT_AWARE_ENHANCEMENT_PROMPT originalPrompt ec ∧
      composeEnhancement EnhancementVariant.lite originalPrompt editorContext =
        LITE_CONTEXT_AWARE_ENHANCEMENT_PROMPT originalPrompt ec) ∧
    ((editorContext = none ∨ ∃ ec, editorContext = some ec ∧ jsTrim ec.text = "") →
      composeEnhancement EnhancementVariant.pro originalPrompt editorContext =
        ADVANCED_ENHANCEMENT_PROMPT originalPrompt ∧
      composeEnhancement EnhancementVariant.lite originalPrompt editorContext =
        LITE_ENHANCEMENT_PROMPT originalPrompt) ∧
    (∀ ec : EditorContext,
      ADVANCED_ENHANCEMENT_PROMPT originalPrompt ≠ LITE_ENHANCEMENT_PROMPT originalPrompt ∧
      CONTEXT_AWARE_ENHANCEMENT_PROMPT originalPrompt ec ≠
        LITE_CONTEXT_AWARE_ENHANCEMENT_PROMPT originalPrompt ec ∧
      CONTEXT_AWARE_ENHANCEMENT_PROMPT originalPrompt ec ≠
        ADVANCED_ENHANCEMENT_PROMPT originalPrompt ∧
      LITE_CONTEXT_AWARE_ENHANCEMENT_PROMPT originalPrompt ec ≠
        LITE_ENHANCEMENT_PROMPT originalPrompt) := by
  refine ⟨?_, ?_, fun ec => ⟨ADVANCED_ne_LITE originalPrompt, CA_ne_LITECA originalPrompt ec,
    CA_ne_ADVANCED originalPrompt ec, LITECA_ne_LITE originalPrompt ec⟩⟩
  · rintro ec rfl htrim
    have hpos : 0 < (jsTrim ec.text).length := string_pos_of_ne_empty _ htrim
    constructor <;> simp [composeEnhancement, selectEnhancementPrompts, hpos]
  · rintro (rfl | ⟨ec, rfl, htrim⟩)
    · constructor <;> simp [composeEnhancement, selectEnhancementPrompts]
    · have h0 : (jsTrim ec.text).length = 0 := by rw [htrim]; rfl
      constructor <;> simp [composeEnhancement, selectEnhancementPrompts, h0]

theorem enhancement_template_selection_witness :
    composeEnhancement EnhancementVariant.pro "p" (some (EditorContext.mk " " "l" "f")) =
      ADVANCED_ENHANCEMENT_PROMPT "p" ∧
    composeEnhancement EnhancementVariant.lite "p" (some (EditorContext.mk " " "l" "f")) =
      LITE_ENHANCEMENT_PROMPT "p" :=
  (enhancement_template_selection "p" (some (EditorContext.mk " " "l" "f"))).2.1
    (Or.inr ⟨EditorContext.mk " " "l" "f", rfl, by decide⟩)

/-! ### Dispatch infrastructure lemmas -/

theorem respStep_of_ne (marked : String → String) (n : String) (acc : Option String)
    (e : SinkEvent) (h : eventName e ≠ some n) :
    respStep marked n acc e = acc := by
  cases e with
  | register m =>
    have hm : m ≠ n := fun hmn => h (by simp [eventName, hmn])
    simp [respStep, hm]
  | update m t =>
    have hm : m ≠ n := fun hmn => h (by simp [eventName, hmn])
    simp [respStep, hm]
  | ctxSet t => simp [respStep]

theorem resp_applyTrace (marked : String → String) (n : String) :
    ∀ (t : List SinkEvent) (st : TurnState),
      mapGet? (applyTrace marked st t).view.responses n =
        t.foldl (respStep marked n) (mapGet? st.view.responses n) := by
  intro t
  induction t with
  | nil => intro st; rfl
  | cons e rest ih =>
    intro st
    show mapGet? (applyTrace marked (applyEvent marked st e) rest).view.responses n = _
    rw [ih, List.foldl_cons]
    congr 1
    cases e with
    | register m =>
      by_cases hm : m = n
      · subst hm
        simp [applyEvent, startModelResponse, respStep, mapGet?_mapSet_self]
      · simp [applyEvent, startModelResponse, respStep, hm,
          mapGet?_mapSet_ne _ _ _ _ (Ne.symm hm)]
    | update m txt =>
      by_cases hm : m = n
      · subst hm
        simp [applyEvent, updateModelResponse, respStep, mapGet?_mapSet_self]
      · simp [applyEvent, updateModelResponse, respStep, hm,
          mapGet?_mapSet_ne _ _ _ _ (Ne.symm hm)]
    | ctxSet txt => simp [applyEvent, respStep]

theorem mem_startModelResponse_names (v : ChatWebView) (m n : String) :
    n ∈ (startModelResponse v m).modelNames ↔ n ∈ v.modelNames ∨ n = m := by
  unfold startModelResponse
  by_cases h : m ∈ v.modelNames
  · simp only [if_pos h]
    constructor
    · exact Or.inl
    · rintro (hn | rfl)
      · exact hn
      · exact h
  · simp [if_neg h]

theorem mem_updateModelResponse_names (marked : String → String) (v : ChatWebView)
    (m txt n : String) :
    n ∈ (updateModelResponse marked v m txt).modelNames ↔ n ∈ v.modelNames ∨ n = m := by
  unfold updateModelResponse
  by_cases h : m ∈ v.modelNames
  · simp only [if_pos h]
    constructor
    · exact Or.inl
    · rintro (hn | rfl)
      · exact hn
      · exact h
  · simp [if_neg h]

theorem names_applyTrace_not_mem (marked : String → String) :
    ∀ (t : List SinkEvent) (st : TurnState) (n : String),
      n ∉ st.view.modelNames → (∀ e ∈ t, eventName e ≠ some n) →
      n ∉ (applyTrace marked st t).view.modelNames := by
  intro t
  induction t with
  | nil => intro st n hn _; exact hn
  | cons e rest ih =>
    intro st n hn he
    have he2 : ∀ x ∈ rest, eventName x ≠ some n :=
      fun x hx => he x (List.mem_cons_of_mem e hx)
    have hne : eventName e ≠ some n := he e (List.mem_cons_self e rest)
    apply ih (applyEvent marked st e) n _ he2
    cases e with
    | register m =>
      have hm : m ≠ n := fun hmn => hne (by simp [eventName, hmn])
      intro hmem
      rcases (mem_startModelResponse_names st.view m n).mp hmem with h1 | h2
      · exact hn h1
      · exact hm h2.symm
    | update m txt =>
      have hm : m ≠ n := fun hmn => hne (by simp [eventName, hmn])
      intro hmem
      rcases (mem_updateModelResponse_names marked st.view m txt n).mp hmem with h1 | h2
      · exact hn h1
      · exact hm h2.symm
    | ctxSet txt =>
      intro hmem
      exact hn hmem

theorem get?_set_self_of_get? {α : Type} :
    ∀ (l : List α) (j : Nat) (a b : α), l.get? j = some a → (l.set j b).get? j = some b := by
  intro l
  induction l with
  | nil => intro j a b h; cases h
  | cons x xs ih =>
    intro j a b h
    cases j with
    | zero => rfl
    | succ j' => exact ih j' a b h

theorem mergeAll_mem {ts : List (List SinkEvent)} {m : List SinkEvent}
    (h : MergeAll ts m) : ∀ e ∈ m, ∃ t ∈ ts, e ∈ t := by
  induction h with
  | nil ts hall => intro e he; cases he
  | step ts j ev rest mm hget hM ih =>
    intro x hx
    rcases List.mem_cons.mp hx with hx1 | hx2
    · refine ⟨ev :: rest, List.get?_mem hget, ?_⟩
      rw [hx1]
      exact List.mem_cons_self ev rest
    · rcases ih x hx2 with ⟨t, ht, hxt⟩
      rcases List.mem_or_eq_of_mem_set ht with ht2 | ht3
      · exact ⟨t, ht2, hxt⟩
      · refine ⟨ev :: rest, List.get?_mem hget, ?_⟩
        rw [ht3] at hxt
        exact List.mem_cons_of_mem ev hxt

theorem mergeAll_foldl_owner (marked : String → String) (n : String)
    {ts : List (List SinkEvent)} {m : List SinkEvent} (h : MergeAll ts m) :
    ∀ (j : Nat) (tj : List SinkEvent), ts.get? j = some tj →
      (∀ i t, i ≠ j → ts.get? i = some t → ∀ e ∈ t, eventName e ≠ some n) →
      ∀ acc, m.foldl (respStep marked n) acc = tj.foldl (respStep marked n) acc := by
  induction h with
  | nil ts hall =>
    intro j tj hget _ acc
    have htj : tj = [] := hall tj (List.get?_mem hget)
    rw [htj]
  | step ts p ev rest mm hget hM ih =>
    intro j tj hj hothers acc
    by_cases hpj : p = j
    · subst hpj
      have htj : tj = ev :: rest := by
        have h2 := hj
        rw [hget] at h2
        injection h2 with h3
        exact h3.symm
      subst htj
      rw [List.foldl_cons, List.foldl_cons]
      have hset : (ts.set p rest).get? p = some rest :=
        get?_set_self_of_get? ts p (ev :: rest) rest hget
      refine ih p rest hset ?_ (respStep marked n acc ev)
      intro i t hip hget2 e he
      have hpi : p ≠ i := Ne.symm hip
      rw [List.get?_set_ne rest ts hpi] at hget2
      exact hothers i t hip hget2 e he
    · have hothersP : ∀ e ∈ ev :: rest, eventName e ≠ some n :=
        hothers p (ev :: rest) hpj hget
      have hene : eventName ev ≠ some n := hothersP ev (List.mem_cons_self ev rest)
      rw [List.foldl_cons, respStep_of_ne marked n acc ev hene]
      refine ih j tj ?_ ?_ acc
      · rw [List.get?_set_ne rest ts hpj]
        exact hj
      · intro i t hij hget2 e he
        by_cases hip : i = p
        · subst hip
          have hset : (ts.set i rest).get? i = some rest :=
            get?_set_self_of_get? ts i (ev :: rest) rest hget
          rw [hset] at hget2
          injection hget2 with h3
          subst h3
          exact hothersP e (List.mem_cons_of_mem ev he)
        · have hpi : p ≠ i := Ne.symm hip
          rw [List.get?_set_ne rest ts hpi] at hget2
          exact hothers i t hij hget2 e he

theorem mergeAll_nil_cons {ts : List (List SinkEvent)} {m : List SinkEvent}
    (h : MergeAll ts m) : MergeAll ([] :: ts) m := by
  induction h with
  | nil ts hall =>
    apply MergeAll.nil
    intro t ht
    rcases List.mem_cons.mp ht with rfl | ht2
    · rfl
    · exact hall t ht2
  | step ts j ev rest mm hget hM ih =>
    exact MergeAll.step ([] :: ts) (j + 1) ev rest mm hget ih

theorem mergeAll_cons_left {ts : List (List SinkEvent)} {m : List SinkEvent}
    (h : MergeAll ts m) : ∀ t, MergeAll (t :: ts) (t ++ m) := by
  intro t
  induction t with
  | nil => exact mergeAll_nil_cons h
  | cons e t2 ih => exact MergeAll.step ((e :: t2) :: ts) 0 e t2 (t2 ++ m) rfl ih

theorem mergeAll_flatten : ∀ ts : List (List SinkEvent), MergeAll ts ts.flatten := by
  intro ts
  induction ts with
  | nil => exact MergeAll.nil [] (by intro t ht; cases ht)
  | cons t ts ih => exact mergeAll_cons_left ih t

theorem streamUpdates_mem (modelName : String) :
    ∀ (fragments : List String) (acc : String) (e : SinkEvent),
      e ∈ streamUpdates modelName acc fragments → ∃ txt, e = SinkEvent.update modelName txt := by
  intro fragments
  induction fragments with
  | nil => intro acc e he; cases he
  | cons f rest ih =>
    intro acc e he
    rcases List.mem_cons.mp he with rfl | he2
    · exact ⟨acc ++ f, rfl⟩
    · exact ih (acc ++ f) e he2

theorem targetTask_eventName (modelName : String) (o : ModelOutcome) :
    ∀ e ∈ (targetTask modelName o).1,
      eventName e = some modelName ∨ eventName e = none := by
  cases o with
  | success fragments =>
    intro e he
    have he2 : e ∈ SinkEvent.register modelName :: streamUpdates modelName "" fragments ++
        (if containsSub (jsToLower (finalText "" fragments)) "error:" then []
         else [SinkEvent.ctxSet (finalText "" fragments)]) := he
    rcases List.mem_cons.mp he2 with rfl | he3
    · exact Or.inl rfl
    · rcases List.mem_append.mp he3 with he4 | he4
      · rcases streamUpdates_mem modelName fragments "" e he4 with ⟨txt, rfl⟩
        exact Or.inl rfl
      · rcases hsplit : containsSub (jsToLower (finalText "" fragments)) "error:" with _ | _ <;>
          rw [hsplit] at he4
        · rcases List.mem_singleton.mp he4 with rfl
          exact Or.inr rfl
        · cases he4
  | failure fragments error =>
    intro e he
    have he2 : e ∈ (SinkEvent.register modelName :: streamUpdates modelName "" fragments) ++
        [SinkEvent.update modelName (getModelErrorMessage error)] := he
    rcases List.mem_append.mp he2 with he3 | he3
    · rcases List.mem_cons.mp he3 with rfl | he4
      · exact Or.inl rfl
      · rcases streamUpdates_mem modelName fragments "" e he4 with ⟨txt, rfl⟩
        exact Or.inl rfl
    · rcases List.mem_singleton.mp he3 with rfl
      exact Or.inl rfl

theorem foldl_respStep_streamUpdates (marked : String → String) (n : String) :
    ∀ (fragments : List String) (acc : String) (a : Option String),
      (streamUpdates n acc fragments).foldl (respStep marked n) a =
        if fragments.isEmpty then a
        else some (formatMarkdown marked (finalText acc fragments)) := by
  intro fragments
  induction fragments with
  | nil => intro acc a; rfl
  | cons f rest ih =>
    intro acc a
    show (SinkEvent.update n (acc ++ f) :: streamUpdates n (acc ++ f) rest).foldl
        (respStep marked n) a = _
    rw [List.foldl_cons]
    have hstep : respStep marked n a (SinkEvent.update n (acc ++ f)) =
        some (formatMarkdown marked (acc ++ f)) := by
      simp [respStep]
    rw [hstep, ih (acc ++ f)]
    cases rest with
    | nil => simp [finalText]
    | cons g gs =>
      have hft : finalText (acc ++ f) (g :: gs) = finalText acc (f :: g :: gs) := rfl
      simp [hft]

theorem foldl_respStep_targetTask_success (marked : String → String) (n : String)
    (fragments : List String) (acc : Option String) :
    ((targetTask n (ModelOutcome.success fragments)).1).foldl (respStep marked n) acc =
      if fragments.isEmpty then some typingIndicatorHtml
      else some (formatMarkdown marked (finalText "" fragments)) := by
  have htr : (targetTask n (ModelOutcome.success fragments)).1 =
      (SinkEvent.register n :: streamUpdates n "" fragments) ++
        (if containsSub (jsToLower (finalText "" fragments)) "error:" then []
         else [SinkEvent.ctxSet (finalText "" fragments)]) := rfl
  rw [htr, List.foldl_append, List.foldl_cons]
  have hreg : respStep marked n acc (SinkEvent.register n) = some typingIndicatorHtml := by
    simp [respStep]
  rw [hreg, foldl_respStep_streamUpdates]
  cases hc : containsSub (jsToLower (finalText "" fragments)) "error:" <;>
    simp [hc, respStep]

theorem foldl_respStep_targetTask_failure (marked : String → String) (n : String)
    (fragments : List String) (error : JsError) (acc : Option String) :
    ((targetTask n (ModelOutcome.failure fragments error)).1).foldl (respStep marked n) acc =
      some (formatMarkdown marked (getModelErrorMessage error)) := by
  have htr : (targetTask n (ModelOutcome.failure fragments error)).1 =
      (SinkEvent.register n :: streamUpdates n "" fragments) ++
        [SinkEvent.update n (getModelErrorMessage error)] := rfl
  rw [htr, List.foldl_append]
  simp [respStep]

theorem targetTask_snd (modelName : String) (o : ModelOutcome) :
    (targetTask modelName o).2 = Except.ok () := by
  cases o <;> rfl

theorem promiseAll_ok (rs : List (Except JsError Unit))
    (h : ∀ r ∈ rs, r = Except.ok ()) : promiseAll rs = Except.ok () := by
  induction rs with
  | nil => rfl
  | cons r rest ih =>
    have hr := h r (List.mem_cons_self r rest)
    subst hr
    exact ih (fun x hx => h x (List.mem_cons_of_mem _ hx))

theorem dispatchJoin_ok (aiModels : List AIModel) (runs : List (String × ModelOutcome)) :
    dispatchJoin aiModels runs = Except.ok () := by
  show promiseAll (chatTurnResults aiModels runs) = Except.ok ()
  apply promiseAll_ok
  intro r hr
  have hr2 : r ∈ (withIdx 0 (modelsToUse runs)).map
      (fun p => (targetTask (turnModelName aiModels p.1 p.2.1) p.2.2).2) := hr
  rcases List.mem_map.mp hr2 with ⟨p, _, rfl⟩
  exact targetTask_snd _ _

theorem withIdx_get? {α : Type} :
    ∀ (l : List α) (s i : Nat),
      (withIdx s l).get? i = (l.get? i).map (fun a => (s + i, a)) := by
  intro l
  induction l with
  | nil => intro s i; rfl
  | cons x xs ih =>
    intro s i
    cases i with
    | zero => rfl
    | succ i2 =>
      show (withIdx (s + 1) xs).get? i2 = (xs.get? i2).map (fun a => (s + (i2 + 1), a))
      rw [ih (s + 1) i2]
      have harith : s + 1 + i2 = s + (i2 + 1) := by omega
      rw [harith]

theorem withIdx_length {α : Type} :
    ∀ (s : Nat) (l : List α), (withIdx s l).length = l.length := by
  intro s l
  induction l generalizing s with
  | nil => rfl
  | cons x xs ih =>
    show (withIdx (s + 1) xs).length + 1 = xs.length + 1
    rw [ih (s + 1)]

theorem chatTurnTraces_length (aiModels : List AIModel) (runs : List (String × ModelOutcome)) :
    (chatTurnTraces aiModels runs).length = (modelsToUse runs).length := by
  show ((withIdx 0 (modelsToUse runs)).map _).length = _
  rw [List.length_map, withIdx_length]

theorem dispatchNames_length (aiModels : List AIModel) (runs : List (String × ModelOutcome)) :
    (dispatchNames aiModels runs).length = (modelsToUse runs).length := by
  show ((withIdx 0 (modelsToUse runs)).map _).length = _
  rw [List.length_map, withIdx_length]

theorem chatTurnTraces_get? (aiModels : List AIModel) (runs : List (String × ModelOutcome))
    (i : Nat) (hi : i < (modelsToUse runs).length) :
    (chatTurnTraces aiModels runs).get? i =
      some ((targetTask (turnModelName aiModels i ((modelsToUse runs).get ⟨i, hi⟩).1)
        (((modelsToUse runs).get ⟨i, hi⟩).2)).1) := by
  show ((withIdx 0 (modelsToUse runs)).map
      (fun p => (targetTask (turnModelName aiModels p.1 p.2.1) p.2.2).1)).get? i = _
  rw [List.get?_map, withIdx_get?, List.get?_eq_get hi]
  simp [Nat.zero_add]

theorem dispatchNames_get? (aiModels : List AIModel) (runs : List (String × ModelOutcome))
    (i : Nat) (hi : i < (modelsToUse runs).length) :
    (dispatchNames aiModels runs).get? i =
      some (turnModelName aiModels i ((modelsToUse runs).get ⟨i, hi⟩).1) := by
  show ((withIdx 0 (modelsToUse runs)).map
      (fun p => turnModelName aiModels p.1 p.2.1)).get? i = _
  rw [List.get?_map, withIdx_get?, List.get?_eq_get hi]
  simp [Nat.zero_add]

theorem dispatchNames_nodup_ne (aiModels : List AIModel) (runs : List (String × ModelOutcome))
    (hnodup : (dispatchNames aiModels runs).Nodup)
    (i i2 : Nat) (hi : i < (modelsToUse runs).length) (hi2 : i2 < (modelsToUse runs).length)
    (hne : i2 ≠ i) :
    turnModelName aiModels i2 ((modelsToUse runs).get ⟨i2, hi2⟩).1 ≠
      turnModelName aiModels i ((modelsToUse runs).get ⟨i, hi⟩).1 := by
  intro heq
  have hl : (dispatchNames aiModels runs).length = (modelsToUse runs).length :=
    dispatchNames_length aiModels runs
  have ha : i < (dispatchNames aiModels runs).length := by rw [hl]; exact hi
  have hb : i2 < (dispatchNames aiModels runs).length := by rw [hl]; exact hi2
  have e1 : (dispatchNames aiModels runs).get ⟨i2, hb⟩ =
      turnModelName aiModels i2 ((modelsToUse runs).get ⟨i2, hi2⟩).1 := by
    have h := dispatchNames_get? aiModels runs i2 hi2
    rw [List.get?_eq_get hb] at h
    injection h
  have e2 : (dispatchNames aiModels runs).get ⟨i, ha⟩ =
      turnModelName aiModels i ((modelsToUse runs).get ⟨i, hi⟩).1 := by
    have h := dispatchNames_get? aiModels runs i hi
    rw [List.get?_eq_get ha] at h
    injection h
  have g : (dispatchNames aiModels runs).get ⟨i2, hb⟩ = (dispatchNames aiModels runs).get ⟨i, ha⟩ := by
    rw [e1, e2, heq]
  have := (hnodup.get_inj_iff).mp g
  exact hne (congrArg Fin.val this)

/-! ### Dispatch claims -/

/-- C1: when, among the dispatched targets, exactly target `k` fails
(throws) and every other target streams to completion, any interleaved
execution of the per-target tasks leaves the sink holding the (formatted)
successful final text of every non-`k` target that produced at least one
fragment (and the registration placeholder for a target whose stream
yielded none), and the synthesized error string for target `k`; the join
over all per-target tasks settles without throwing. -/
theorem dispatch_failure_isolation
    (aiModels : List AIModel) (runs : List (String × ModelOutcome)) (prompt : String)
    (st : TurnState) (marked : String → String) (k : Nat)
    (hk : k < (modelsToUse runs).length)
    (fragsK : List String) (err : JsError)
    (hfail : ((modelsToUse runs).get ⟨k, hk⟩).2 = ModelOutcome.failure fragsK err)
    (hsucc : ∀ i (hi : i < (modelsToUse runs).length), i ≠ k →
      ∃ frags, ((modelsToUse runs).get ⟨i, hi⟩).2 = ModelOutcome.success frags)
    (hnodup : (dispatchNames aiModels runs).Nodup)
    (merged : List SinkEvent)
    (hm : MergeAll (chatTurnTraces aiModels runs) merged) :
    dispatchJoin aiModels runs = Except.ok () ∧
    (∀ i (hi : i < (modelsToUse runs).length) (frags : List String),
      ((modelsToUse runs).get ⟨i, hi⟩).2 = ModelOutcome.success frags →
      mapGet? (applyTrace marked (chatTurnSetup aiModels runs prompt st) merged).view.responses
          (turnModelName aiModels i ((modelsToUse runs).get ⟨i, hi⟩).1) =
        if frags.isEmpty then some typingIndicatorHtml
        else some (formatMarkdown marked (finalText "" frags))) ∧
    mapGet? (applyTrace marked (chatTurnSetup aiModels runs prompt st) merged).view.responses
        (turnModelName aiModels k ((modelsToUse runs).get ⟨k, hk⟩).1) =
      some (formatMarkdown marked (getModelErrorMessage err)) := by
  have howner : ∀ (i : Nat) (hi : i < (modelsToUse runs).length),
      ∀ i2 t, i2 ≠ i → (chatTurnTraces aiModels runs).get? i2 = some t →
        ∀ e ∈ t, eventName e ≠ some (turnModelName aiModels i ((modelsToUse runs).get ⟨i, hi⟩).1) := by
    intro i hi i2 t hne hget e he
    have hi2 : i2 < (modelsToUse runs).length := by
      by_contra hcon
      have hlen : (chatTurnTraces aiModels runs).length ≤ i2 := by
        rw [chatTurnTraces_length]
        omega
      rw [List.get?_eq_none.mpr hlen] at hget
      cases hget
    have htr := chatTurnTraces_get? aiModels runs i2 hi2
    rw [hget] at htr
    injection htr with htr2
    have hee : e ∈ (targetTask (turnModelName aiModels i2 ((modelsToUse runs).get ⟨i2, hi2⟩).1)
        (((modelsToUse runs).get ⟨i2, hi2⟩).2)).1 := by
      rw [← htr2]
      exact he
    rcases targetTask_eventName _ _ e hee with h1 | h1
    · rw [h1]
      intro hcontra
      injection hcontra with h2
      exact dispatchNames_nodup_ne aiModels runs hnodup i i2 hi hi2 hne h2
    · rw [h1]
      intro hcontra
      cases hcontra
  have key : ∀ (i : Nat) (hi : i < (modelsToUse runs).length),
      mapGet? (applyTrace marked (chatTurnSetup aiModels runs prompt st) merged).view.responses
          (turnModelName aiModels i ((modelsToUse runs).get ⟨i, hi⟩).1) =
        ((targetTask (turnModelName aiModels i ((modelsToUse runs).get ⟨i, hi⟩).1)
            (((modelsToUse runs).get ⟨i, hi⟩).2)).1).foldl
          (respStep marked (turnModelName aiModels i ((modelsToUse runs).get ⟨i, hi⟩).1))
          (mapGet? (chatTurnSetup aiModels runs prompt st).view.responses
            (turnModelName aiModels i ((modelsToUse runs).get ⟨i, hi⟩).1)) := by
    intro i hi
    rw [resp_applyTrace]
    exact mergeAll_foldl_owner marked _ hm i _ (chatTurnTraces_get? aiModels runs i hi)
      (howner i hi) _
  refine ⟨dispatchJoin_ok aiModels runs, ?_, ?_⟩
  · intro i hi frags hfr
    rw [key i hi]
    rw [show (((modelsToUse runs).get ⟨i, hi⟩).2) = ModelOutcome.success frags from hfr]
    exact foldl_respStep_targetTask_success marked _ frags _
  · rw [key k hk]
    rw [show (((modelsToUse runs).get ⟨k, hk⟩).2) = ModelOutcome.failure fragsK err from hfail]
    exact foldl_respStep_targetTask_failure marked _ fragsK err _

theorem dispatch_failure_isolation_witness :
    dispatchJoin DEFAULT_AI_MODELS
      [("gpt-4o", ModelOutcome.success ["Hello", " world"]),
       ("m2", ModelOutcome.failure [] (JsError.mk (some "boom") none))] = Except.ok () ∧
    mapGet? (applyTrace (fun s => s)
        (chatTurnSetup DEFAULT_AI_MODELS
          [("gpt-4o", ModelOutcome.success ["Hello", " world"]),
           ("m2", ModelOutcome.failure [] (JsError.mk (some "boom") none))]
          "hi" (TurnState.mk (ChatWebView.mk "" [] [] []) none none))
        ((chatTurnTraces DEFAULT_AI_MODELS
          [("gpt-4o", ModelOutcome.success ["Hello", " world"]),
           ("m2", ModelOutcome.failure [] (JsError.mk (some "boom") none))]).flatten)).view.responses
        "GPT-4o" =
      some (formatMarkdown (fun s => s) (finalText "" ["Hello", " world"])) ∧
    mapGet? (applyTrace (fun s => s)
        (chatTurnSetup DEFAULT_AI_MODELS
          [("gpt-4o", ModelOutcome.success ["Hello", " world"]),
           ("m2", ModelOutcome.failure [] (JsError.mk (some "boom") none))]
          "hi" (TurnState.mk (ChatWebView.mk "" [] [] []) none none))
        ((chatTurnTraces DEFAULT_AI_MODELS
          [("gpt-4o", ModelOutcome.success ["Hello", " world"]),
           ("m2", ModelOutcome.failure [] (JsError.mk (some "boom") none))]).flatten)).view.responses
        "Model 2: m2" =
      some (formatMarkdown (fun s => s)
        (getModelErrorMessage (JsError.mk (some "boom") none))) := by
  have h := dispatch_failure_isolation DEFAULT_AI_MODELS
    [("gpt-4o", ModelOutcome.success ["Hello", " world"]),
     ("m2", ModelOutcome.failure [] (JsError.mk (some "boom") none))]
    "hi" (TurnState.mk (ChatWebView.mk "" [] [] []) none none) (fun s => s)
    1 (by decide) [] (JsError.mk (some "boom") none) (by decide)
    (by
      intro i hi hne
      have h2 : i < 2 := hi
      rcases (by omega : i = 0 ∨ i = 1) with rfl | rfl
      · exact ⟨["Hello", " world"], rfl⟩
      · exact absurd rfl hne)
    (by decide)
    ((chatTurnTraces DEFAULT_AI_MODELS
      [("gpt-4o", ModelOutcome.success ["Hello", " world"]),
       ("m2", ModelOutcome.failure [] (JsError.mk (some "boom") none))]).flatten)
    (mergeAll_flatten _)
  refine ⟨h.1, ?_, ?_⟩
  · have h2 := h.2.1 0 (by decide) ["Hello", " world"] rfl
    exact h2.trans (by decide)
  · exact h.2.2

/-- C4: with more than six resolved targets, exactly six per-target tasks
are dispatched and six names registered (the first six in resolution
order), and any target beyond the sixth whose display name is not among
the six dispatched names never enters the sink's name list, under any
interleaving of the dispatched tasks. -/
theorem cap_enforcement
    (aiModels : List AIModel) (runs : List (String × ModelOutcome)) (prompt : String)
    (st : TurnState) (marked : String → String)
    (h6 : 6 < runs.length)
    (merged : List SinkEvent)
    (hm : MergeAll (chatTurnTraces aiModels runs) merged) :
    (chatTurnTraces aiModels runs).length = 6 ∧
    (dispatchNames aiModels runs).length = 6 ∧
    (∀ nm, nm ∉ dispatchNames aiModels runs →
      nm ∉ (applyTrace marked (chatTurnSetup aiModels runs prompt st) merged).view.modelNames) ∧
    (∀ i (hi : i < runs.length), 6 ≤ i →
      turnModelName aiModels i ((runs.get ⟨i, hi⟩).1) ∉ dispatchNames aiModels runs →
      turnModelName aiModels i ((runs.get ⟨i, hi⟩).1) ∉
        (applyTrace marked (chatTurnSetup aiModels runs prompt st) merged).view.modelNames) := by
  have hlen : (modelsToUse runs).length = 6 := by
    show (runs.take 6).length = 6
    rw [List.length_take]
    omega
  have hfold : ∀ (nm : String) (ps : List (Nat × (String × ModelOutcome))) (v : ChatWebView),
      nm ∉ v.modelNames → (∀ p ∈ ps, turnModelName aiModels p.1 p.2.1 ≠ nm) →
      nm ∉ (ps.foldl (fun v p => startModelResponse v (turnModelName aiModels p.1 p.2.1))
        v).modelNames := by
    intro nm ps
    induction ps with
    | nil => intro v hv _; exact hv
    | cons p ps2 ih =>
      intro v hv hall
      rw [List.foldl_cons]
      apply ih
      · intro hmem
        rcases (mem_startModelResponse_names v _ nm).mp hmem with h1 | h2
        · exact hv h1
        · exact hall p (List.mem_cons_self p ps2) h2.symm
      · intro q hq
        exact hall q (List.mem_cons_of_mem _ hq)
  have hmain : ∀ nm, nm ∉ dispatchNames aiModels runs →
      nm ∉ (applyTrace marked (chatTurnSetup aiModels runs prompt st) merged).view.modelNames := by
    intro nm hnm
    apply names_applyTrace_not_mem
    · show nm ∉ ((withIdx 0 (modelsToUse runs)).foldl
        (fun v p => startModelResponse v (turnModelName aiModels p.1 p.2.1))
        (resetModels st.view)).modelNames
      apply hfold
      · intro hmem
        cases hmem
      · intro p hp heq
        apply hnm
        rw [← heq]
        exact List.mem_map_of_mem _ hp
    · intro e he
      rcases mergeAll_mem hm e he with ⟨t, ht, het⟩
      have ht2 : t ∈ (withIdx 0 (modelsToUse runs)).map
          (fun p => (targetTask (turnModelName aiModels p.1 p.2.1) p.2.2).1) := ht
      rcases List.mem_map.mp ht2 with ⟨p, hp, hpt⟩
      have hee : e ∈ (targetTask (turnModelName aiModels p.1 p.2.1) p.2.2).1 := by
        rw [hpt]
        exact het
      rcases targetTask_eventName _ _ e hee with h1 | h1 <;> rw [h1]
      · intro hcontra
        injection hcontra with h2
        apply hnm
        rw [← h2]
        exact List.mem_map_of_mem _ hp
      · intro hcontra
        cases hcontra
  refine ⟨?_, ?_, hmain, ?_⟩
  · rw [chatTurnTraces_length, hlen]
  · rw [dispatchNames_length, hlen]
  · intro i hi h6i hnin
    exact hmain _ hnin

theorem cap_enforcement_witness :
    (chatTurnTraces DEFAULT_AI_MODELS
      [("m1", ModelOutcome.success []), ("m2", ModelOutcome.success []),
       ("m3", ModelOutcome.success []), ("m4", ModelOutcome.success []),
       ("m5", ModelOutcome.success []), ("m6", ModelOutcome.success []),
       ("m7", ModelOutcome.success []), ("m8", ModelOutcome.success [])]).length = 6 ∧
    ("Model 7: m7" : String) ∉ (applyTrace (fun s => s)
      (chatTurnSetup DEFAULT_AI_MODELS
        [("m1", ModelOutcome.success []), ("m2", ModelOutcome.success []),
         ("m3", ModelOutcome.success []), ("m4", ModelOutcome.success []),
         ("m5", ModelOutcome.success []), ("m6", ModelOutcome.success []),
         ("m7", ModelOutcome.success []), ("m8", ModelOutcome.success [])]
        "q" (TurnState.mk (ChatWebView.mk "" [] [] []) none none))
      ((chatTurnTraces DEFAULT_AI_MODELS
        [("m1", ModelOutcome.success []), ("m2", ModelOutcome.success []),
         ("m3", ModelOutcome.success []), ("m4", ModelOutcome.success []),
         ("m5", ModelOutcome.success []), ("m6", ModelOutcome.success []),
         ("m7", ModelOutcome.success []), ("m8", ModelOutcome.success [])]).flatten)).view.modelNames := by
  have h := cap_enforcement DEFAULT_AI_MODELS
    [("m1", ModelOutcome.success []), ("m2", ModelOutcome.success []),
     ("m3", ModelOutcome.success []), ("m4", ModelOutcome.success []),
     ("m5", ModelOutcome.success []), ("m6", ModelOutcome.success []),
     ("m7", ModelOutcome.success []), ("m8", ModelOutcome.success [])]
    "q" (TurnState.mk (ChatWebView.mk "" [] [] []) none none) (fun s => s)
    (by decide)
    ((chatTurnTraces DEFAULT_AI_MODELS
      [("m1", ModelOutcome.success []), ("m2", ModelOutcome.success []),
       ("m3", ModelOutcome.success []), ("m4", ModelOutcome.success []),
       ("m5", ModelOutcome.success []), ("m6", ModelOutcome.success []),
       ("m7", ModelOutcome.success []), ("m8", ModelOutcome.success [])]).flatten)
    (mergeAll_flatten _)
  exact ⟨h.1, h.2.2.1 "Model 7: m7" (by decide)⟩

end MultiPilot
